import Mathlib

/-!
Verification development for the fantasy-football player valuation and
ranking engine.  The Python sources are shallowly embedded: player names
are lists of characters, floating-point quantities are rationals, and a
value that the pandas/numpy code would turn into NaN (or ±inf) is
modelled as `none` of an `Option`.  Each definition mirrors one function
of the source tree (`src/adp_comparison.py`, `src/vbd_optimizer.py`,
`src/individual_optimizer.py`, `src/ranking.py`, `src/main.py`).
-/

set_option maxHeartbeats 1000000
set_option maxRecDepth 100000

/-- Player-name strings are modelled as lists of characters. -/
abbrev Name := List Char

/-- ASCII lower-casing of one character; models Python `str.lower` on the
ASCII range used by player names. -/
def pyLowerChar (c : Char) : Char :=
  if 65 ≤ c.toNat ∧ c.toNat ≤ 90 then Char.ofNat (c.toNat + 32) else c

/-- Python whitespace characters (`str.split`, `str.strip`, and the regex
class backslash-s): space, tab, newline, carriage return, vertical tab,
form feed. -/
def isPyWs (c : Char) : Bool :=
  c.toNat = 32 || c.toNat = 9 || c.toNat = 10 || c.toNat = 13 ||
    c.toNat = 11 || c.toNat = 12

/-- Python regex word characters (the backslash-w class, ASCII part):
letters, digits and underscore. -/
def isPyWordChar (c : Char) : Bool :=
  (48 ≤ c.toNat && c.toNat ≤ 57) || (65 ≤ c.toNat && c.toNat ≤ 90) ||
    (97 ≤ c.toNat && c.toNat ≤ 122) || c.toNat = 95

/-- A character that survives the main normalizer's `[^a-z ]` filter:
a lowercase letter or a space. -/
def azOrSpace (c : Char) : Bool :=
  (97 ≤ c.toNat && c.toNat ≤ 122) || c.toNat = 32

/-- Python `str.strip`: drop leading and trailing whitespace. -/
def stripWs (s : Name) : Name :=
  ((s.dropWhile isPyWs).reverse.dropWhile isPyWs).reverse

/-- Helper for `squashWs`: the flag records whether the previous input
character belonged to a whitespace run that has already emitted its
single replacement space. -/
def sqGo : Bool → Name → Name
  | _, [] => []
  | inWs, c :: cs =>
    if isPyWs c then
      (if inWs then sqGo true cs else ' ' :: sqGo true cs)
    else c :: sqGo false cs

/-- The regex substitution replacing every maximal whitespace run by a
single space (Python re.sub of backslash-s-plus with a space). -/
def squashWs (s : Name) : Name := sqGo false s

/-- Models Python joining with a single space after splitting on
whitespace: maximal whitespace runs collapse to one space and leading
and trailing whitespace disappears. -/
def joinSplit (s : Name) : Name := stripWs (squashWs s)

/-- The suffix strings stripped (once each, in this order) from the end
of a name by adp_comparison.normalize_player_name. -/
def adpSuffixes : List Name :=
  [" ii".data, " iii".data, " iv".data, " jr.".data, " sr.".data,
   " jr".data, " sr".data]

/-- One step of the suffix-stripping loop of normalize_player_name:
drop the suffix from the end of the name if it is there. -/
def stripSuffixStep (n : Name) (suf : Name) : Name :=
  if suf.isSuffixOf n then n.take (n.length - suf.length) else n

/-- The suffix-stripping loop of normalize_player_name (each suffix of
`adpSuffixes` is tried once, in order). -/
def stripAdpSuffixes (n : Name) : Name :=
  adpSuffixes.foldl stripSuffixStep n

/-- The nickname table of adp_comparison.normalize_player_name.  The
Python source writes a dict literal with many duplicated keys; Python
keeps the first occurrence's position and the last occurrence's value,
which is what this ordered association list records (so `jerry`, `terry`
and `harry` map to themselves: their later identity entries overwrite
`gerald`, `terrence` and `harold`). -/
def nameVariations : List (Name × Name) :=
  [("jimmy".data, "james".data), ("jim".data, "james".data),
   ("mike".data, "michael".data), ("mikey".data, "michael".data),
   ("chris".data, "christopher".data), ("nick".data, "nicholas".data),
   ("joe".data, "joseph".data), ("josh".data, "joshua".data),
   ("dave".data, "david".data), ("davey".data, "david".data),
   ("rob".data, "robert".data), ("bobby".data, "robert".data),
   ("bob".data, "robert".data), ("tom".data, "thomas".data),
   ("tommy".data, "thomas".data), ("dan".data, "daniel".data),
   ("danny".data, "daniel".data), ("sam".data, "samuel".data),
   ("sammie".data, "samuel".data), ("alex".data, "alexander".data),
   ("matt".data, "matthew".data), ("nate".data, "nathaniel".data),
   ("ben".data, "benjamin".data), ("benny".data, "benjamin".data),
   ("andy".data, "andrew".data), ("drew".data, "andrew".data),
   ("tony".data, "anthony".data), ("ant".data, "anthony".data),
   ("steve".data, "steven".data), ("brian".data, "bryan".data),
   ("phil".data, "phillip".data), ("jeff".data, "jeffrey".data),
   ("greg".data, "gregory".data), ("kevin".data, "kevin".data),
   ("kev".data, "kevin".data), ("mark".data, "mark".data),
   ("marc".data, "mark".data), ("john".data, "john".data),
   ("jon".data, "john".data), ("jonny".data, "john".data),
   ("johnny".data, "john".data), ("bill".data, "william".data),
   ("billy".data, "william".data), ("will".data, "william".data),
   ("willie".data, "william".data), ("rick".data, "richard".data),
   ("ricky".data, "richard".data), ("dick".data, "richard".data),
   ("rich".data, "richard".data), ("ron".data, "ronald".data),
   ("ronnie".data, "ronald".data), ("ken".data, "kenneth".data),
   ("kenny".data, "kenneth".data), ("gary".data, "gary".data),
   ("larry".data, "lawrence".data), ("jerry".data, "jerry".data),
   ("terry".data, "terry".data), ("harry".data, "harry".data),
   ("barry".data, "barry".data), ("perry".data, "perry".data),
   ("kerry".data, "kerry".data), ("derry".data, "derry".data),
   ("cherry".data, "cherry".data), ("sherry".data, "sherry".data),
   ("merry".data, "merry".data), ("ferry".data, "ferry".data),
   ("berry".data, "berry".data)]

/-- One step of the nickname loop: if the name starts with the short
name followed by a space, replace that first occurrence by the full
name followed by a space. -/
def variationStep (n : Name) (kv : Name × Name) : Name :=
  if (kv.1 ++ [' ']).isPrefixOf n then
    kv.2 ++ [' '] ++ n.drop (kv.1.length + 1)
  else n

/-- The nickname-expansion loop of normalize_player_name. -/
def applyVariations (n : Name) : Name :=
  nameVariations.foldl variationStep n

/-- adp_comparison.normalize_player_name (the non-NaN branch: the input
is an actual string).  Lower-case and strip, strip one generational
suffix per table entry, collapse whitespace, delete periods and commas,
turn hyphens into spaces, then expand leading nicknames. -/
def normalize_player_name (s : Name) : Name :=
  let n1 := stripWs (s.map pyLowerChar)
  let n2 := stripAdpSuffixes n1
  let n3 := joinSplit n2
  let n4 := ((n3.filter (fun c => !(c = '.'))).filter
      (fun c => !(c = ','))).map (fun c => if c = '-' then ' ' else c)
  applyVariations n4

/-- The whole-word generational suffix tokens removed by main.py's
normalize_name regex. -/
def mainSuffixTokens : List Name :=
  ["jr".data, "sr".data, "ii".data, "iii".data, "iv".data, "v".data]

/-- Emit a maximal word-character run: the run disappears exactly when
it is one of the suffix tokens (a regex match of the token between two
word boundaries is exactly a whole run equal to the token). -/
def emitRun (run : Name) : Name :=
  if run ∈ mainSuffixTokens then [] else run

/-- Helper for `removeSuffixTokens`: `cur` is the word-character run
read so far. -/
def rstGo : Name → Name → Name
  | cur, [] => emitRun cur
  | cur, c :: cs =>
    if isPyWordChar c then rstGo (cur ++ [c]) cs
    else emitRun cur ++ c :: rstGo [] cs

/-- The regex substitution of main.normalize_name deleting whole-word
generational suffixes (word-boundary jr, sr, ii, iii, iv or v). -/
def removeSuffixTokens (s : Name) : Name := rstGo [] s

/-- The list of maximal word-character runs of a name (empty runs appear
between consecutive separators; they are never suffix tokens). -/
def runsGo : Name → Name → List Name
  | cur, [] => [cur]
  | cur, c :: cs =>
    if isPyWordChar c then runsGo (cur ++ [c]) cs
    else cur :: runsGo [] cs

/-- main.py normalize_name: lower-case, delete whole-word generational
suffixes, delete every character outside lowercase letters and spaces,
collapse whitespace runs to single spaces and strip the ends. -/
def normalize_name (s : Name) : Name :=
  stripWs (squashWs ((removeSuffixTokens (s.map pyLowerChar)).filter azOrSpace))

/-! ### Replacement-value engine (src/vbd_optimizer.py) -/

/-- The four positions the engine iterates over. -/
def fourPositions : List Name := ["QB".data, "RB".data, "WR".data, "TE".data]

/-- A projection row as consumed by the valuation core.  Mandatory
columns are plain fields; columns that a stage reads through
`row.get(..., default)` are `Option`s (`none` = column absent). -/
structure Row where
  player_id : Name
  team : Name
  position : Name
  raw_fantasy_points : ℚ
  efficiency_adjusted_points : Option ℚ := none
  injury_weight : Option ℚ := none
  mc_mean : Option ℚ := none
  mc_median : Option ℚ := none
  mc_25th_percentile : Option ℚ := none
  mc_75th_percentile : Option ℚ := none
  mc_volatility : Option ℚ := none
  mc_probability_above_avg : Option ℚ := none
  mc_upside_potential : Option ℚ := none
  mc_downside_risk : Option ℚ := none
  vor_final : Option ℚ := none
deriving DecidableEq

/-- Sort a list of values descending (pandas sort_values with
ascending False; only the multiset of values matters to the callers). -/
def sortDesc (l : List ℚ) : List ℚ :=
  List.insertionSort (fun a b => b ≤ a) l

/-- Sort a list of values ascending. -/
def sortAsc (l : List ℚ) : List ℚ :=
  List.insertionSort (fun a b => a ≤ b) l

/-- pandas Series.median(): the middle value of the sorted list, the
mean of the two middle values for an even length, NaN (`none`) for an
empty series. -/
def pandasMedian (l : List ℚ) : Option ℚ :=
  let s := sortAsc l
  if l = [] then none
  else if l.length % 2 = 1 then s.get? (l.length / 2)
  else do
    let a ← s.get? (l.length / 2 - 1)
    let b ← s.get? (l.length / 2)
    pure ((a + b) / 2)

/-- The raw_fantasy_points column of the rows at one position, in row
order. -/
def positionPoints (df : List Row) (pos : Name) : List ℚ :=
  (df.filter (fun r => r.position = pos)).map (fun r => r.raw_fantasy_points)

/-- The roster-cutoff index used by calculate_replacement_baselines:
league_size − 1 for QB and TE, 2·league_size − 1 for RB and WR
(mirroring the if/elif chain of the source). -/
def baselineIdx (league_size : ℕ) (pos : Name) : ℕ :=
  if pos = "QB".data then league_size - 1
  else if pos = "RB".data then 2 * league_size - 1
  else if pos = "WR".data then 2 * league_size - 1
  else league_size - 1

/-- vbd_optimizer.calculate_replacement_baselines for one position:
the value at the cutoff index of the descending sort if the position
pool is large enough, otherwise the pool's median (NaN when the pool is
empty). -/
def calculate_replacement_baselines (df : List Row) (league_size : ℕ)
    (pos : Name) : Option ℚ :=
  let pts := positionPoints df pos
  let sorted := sortDesc pts
  let idx := baselineIdx league_size pos
  if h : idx < sorted.length then some (sorted.get ⟨idx, h⟩)
  else pandasMedian pts

/-- The baseline formula exactly as the specification words it: the
raw_fantasy_points of the player at descending-sorted index
league_size − 1 for QB and TE and 2·league_size − 1 for RB and WR,
falling back to the position median when the pool has too few players.
Stated independently of the source's control flow, for the refinement
proof. -/
def specReplacementBaseline (df : List Row) (league_size : ℕ)
    (pos : Name) : Option ℚ :=
  let pts := positionPoints df pos
  let idx := if pos = "QB".data ∨ pos = "TE".data then league_size - 1
    else 2 * league_size - 1
  match (sortDesc pts).get? idx with
  | some v => some v
  | none => pandasMedian pts

/-- vbd_optimizer.calculate_vor for one player: raw_fantasy_points minus
the position baseline for the four known positions (a NaN baseline makes
the difference NaN); rows at other positions keep the initial 0.0. -/
def calculate_vor (df : List Row) (league_size : ℕ) (p : Row) : Option ℚ :=
  if p.position ∈ fourPositions then
    (calculate_replacement_baselines df league_size p.position).map
      (fun b => p.raw_fantasy_points - b)
  else some 0

/-- Division as pandas/numpy performs it elementwise: a zero divisor
yields NaN (0/0) or ±inf (x/0), never an exception; both non-finite
outcomes are modelled as `none`. -/
def nanDiv (a b : ℚ) : Option ℚ :=
  if b = 0 then none else some (a / b)

/-- pandas Series.min() (NaN on an empty series). -/
def pandasMin (l : List ℚ) : Option ℚ := l.min?

/-- pandas Series.max() (NaN on an empty series). -/
def pandasMax (l : List ℚ) : Option ℚ := l.max?

/-- The min–max normalization of one value against a column, as written
in vbd_optimizer.calculate_optimal_value:
(x − min) / (max − min), with no guard, so a zero-width range divides by
zero and produces a non-finite value (`none`). -/
def minmaxNorm (l : List ℚ) (x : ℚ) : Option ℚ :=
  match pandasMin l, pandasMax l with
  | some mn, some mx => nanDiv (x - mn) (mx - mn)
  | _, _ => none

/-- vbd_optimizer.calculate_optimal_value for one row: 0.7 times the
normalized VOR plus 0.3 times the normalized opportunity cost, with NaN
propagation. -/
def calculate_optimal_value (vorCol ocCol : List ℚ) (v oc : ℚ) : Option ℚ := do
  let vn ← minmaxNorm vorCol v
  let ocn ← minmaxNorm ocCol oc
  pure (vn * (7/10) + ocn * (3/10))

/-! ### Statistical adjustment layer (src/individual_optimizer.py) -/

/-- pandas Series.mean() (NaN on an empty series). -/
def pandasMean (l : List ℚ) : Option ℚ :=
  if l = [] then none else some (l.sum / l.length)

/-- The sample variance used by pandas Series.std() (ddof = 1): NaN for
fewer than two values. -/
def pandasVarSample (l : List ℚ) : Option ℚ :=
  if l.length ≤ 1 then none
  else some ((l.map (fun x => (x - l.sum / l.length) ^ 2)).sum / (l.length - 1))

/-- pandas Series.std() = the square root of the sample variance.  The
square root of a rational is irrational in general, so it is abstracted
by `sqrtFn`; every claim proved below only uses that sqrtFn 0 = 0. -/
def pandasStd (sqrtFn : ℚ → ℚ) (l : List ℚ) : Option ℚ :=
  (pandasVarSample l).map sqrtFn

/-- The z-score assignment of calculate_advanced_statistical_metrics:
(points − position mean) / position std, with pandas NaN semantics (a
NaN std, or a zero std divisor, gives a non-finite z-score). -/
def zScore (sqrtFn : ℚ → ℚ) (df : List Row) (pos : Name) (x : ℚ) : Option ℚ :=
  match pandasMean (positionPoints df pos),
      pandasStd sqrtFn (positionPoints df pos) with
  | some m, some s => nanDiv (x - m) s
  | _, _ => none

/-- Substring test (Python `in` on strings). -/
def listInfix (needle : Name) : Name → Bool
  | [] => needle.isPrefixOf []
  | c :: cs => needle.isPrefixOf (c :: cs) || listInfix needle cs

/-- True when the player_id contains one of the experience keywords
Jr., III, IV, V (Python: any(keyword in row, case-sensitive substring
search)). -/
def hasRookieKeyword (pid : Name) : Bool :=
  listInfix ("Jr.".data) pid || listInfix ("III".data) pid ||
    listInfix ("IV".data) pid || listInfix ("V".data) pid

/-- The risk_score of calculate_risk_adjusted_value before the final
cap: position base, elite-production add-on, rookie keyword add-on and
team-context adjustment. -/
def riskAcc (r : Row) : ℚ :=
  (if r.position = "RB".data then (3/10)
   else if r.position = "QB".data then (1/10)
   else if r.position = "WR".data then (2/10)
   else if r.position = "TE".data then (1/4) else 0) +
  (if 300 < r.raw_fantasy_points then (2/10) else 0) +
  (if hasRookieKeyword r.player_id then (2/10) else 0) +
  (if r.team = "WAS".data ∨ r.team = "NE".data ∨ r.team = "CHI".data then (3/20)
   else if r.team = "KC".data ∨ r.team = "BUF".data ∨ r.team = "CIN".data then -(1/10)
   else 0)

/-- risk_score: the accumulated risk, capped above at 1 (source:
min(risk_score, 1.0)). -/
def risk_score (r : Row) : ℚ := min (riskAcc r) 1

/-- The upside_potential accumulation of calculate_risk_adjusted_value
before the final cap. -/
def upsideAcc (r : Row) : ℚ :=
  (if r.position = "RB".data then (2/10)
   else if r.position = "QB".data then (3/10)
   else if r.position = "WR".data then (4/10)
   else if r.position = "TE".data then (1/10) else 0) +
  (if 300 < r.raw_fantasy_points then (1/10) else 0) +
  (if hasRookieKeyword r.player_id then (3/10) else 0) +
  (if r.team = "WAS".data ∨ r.team = "NE".data ∨ r.team = "CHI".data then 0
   else if r.team = "KC".data ∨ r.team = "BUF".data ∨ r.team = "CIN".data then (1/10)
   else 0)

/-- upside_potential: the accumulated upside, capped above at 1
(source: min(upside_potential, 1.0)). -/
def upside_potential (r : Row) : ℚ := min (upsideAcc r) 1

/-- The consistency_score accumulation of calculate_consistency_metrics
before clamping: base 0.5, position adjustment, scoring-level
adjustment, experience adjustment, team-stability adjustment. -/
def consistencyAcc (r : Row) : ℚ :=
  (1/2) +
  (if r.position = "QB".data then (2/10)
   else if r.position = "WR".data then (1/10)
   else if r.position = "RB".data then -(1/10)
   else if r.position = "TE".data then -(2/10) else 0) +
  (if 200 ≤ r.raw_fantasy_points ∧ r.raw_fantasy_points ≤ 350 then (1/10)
   else if 400 < r.raw_fantasy_points then -(1/10) else 0) +
  (if hasRookieKeyword r.player_id then -(2/10) else (1/10)) +
  (if r.team = "KC".data ∨ r.team = "BUF".data ∨ r.team = "CIN".data ∨
      r.team = "PHI".data then (1/10)
   else if r.team = "WAS".data ∨ r.team = "NE".data ∨ r.team = "CHI".data
   then -(1/10) else 0)

/-- consistency_score: clamped into the unit interval (source:
max(0.0, min(1.0, consistency_score))). -/
def consistency_score (r : Row) : ℚ := max 0 (min 1 (consistencyAcc r))

/-! ### Composite scorer (src/individual_optimizer.py,
calculate_unified_big_board_score) -/

/-- The position-specific VOR weight of the unified score. -/
def vorWeight (pos : Name) : ℚ :=
  if pos = "QB".data then (4/10)
  else if pos = "RB".data then (4/10)
  else if pos = "WR".data then (6/10)
  else if pos = "TE".data then (35/100)
  else (3/10)

/-- The position-specific scarcity boost of the unified score. -/
def scarcityBoost (pos : Name) : ℚ :=
  if pos = "QB".data then (12/10)
  else if pos = "RB".data then (105/100)
  else if pos = "WR".data then (125/100)
  else if pos = "TE".data then (115/100)
  else 1

/-- The QB cap factor (currently 1.0 in every branch of the source). -/
def capFactor (pos : Name) : ℚ := if pos = "QB".data then 1 else 1

/-- The position factor applied to the whole sum. -/
def positionFactor (pos : Name) : ℚ :=
  if pos = "QB".data then (11/10)
  else if pos = "RB".data then 1
  else if pos = "WR".data then (12/10)
  else if pos = "TE".data then (112/100)
  else 1

/-- The position-specific volatility multiplier. -/
def volatilityMult (pos : Name) : ℚ :=
  if pos = "QB".data then 4
  else if pos = "RB".data then (5/2)
  else if pos = "WR".data then (9/5)
  else if pos = "TE".data then 1
  else 0

/-- The per-row unified big board score of
calculate_unified_big_board_score, with the source's `.get` defaults:
efficiency-adjusted points default to the raw points, injury weight to
1, the Monte Carlo summary statistics to the injury-adjusted points (or
to 0, 0.5 and 0 for volatility, probability and upside), and vor_final
to 0.  Negative vor_final is clamped to 0 (vor_norm = max(vor_final, 0))
before it is weighted. -/
def unified_score (r : Row) : ℚ :=
  let eff := r.efficiency_adjusted_points.getD r.raw_fantasy_points
  let iw := r.injury_weight.getD 1
  let injury_penalty := (1 - iw) * (2/10)
  let iap := eff * (1 - injury_penalty)
  let mcMean := r.mc_mean.getD iap
  let mcMedian := r.mc_median.getD iap
  let mc25 := r.mc_25th_percentile.getD iap
  let mc75 := r.mc_75th_percentile.getD iap
  let mcVol := r.mc_volatility.getD 0
  let mcProb := r.mc_probability_above_avg.getD (1/2)
  let mcUpside := r.mc_upside_potential.getD 0
  let vorNorm := max (r.vor_final.getD 0) 0
  let volatilityPenalty := mcVol * volatilityMult r.position
  let base := iap * (2/10) + mcMean * (1/10) + mcMedian * (2/100) +
    mc25 * (1/100) + mc75 * (1/100) + mcProb * (3/2) + mcUpside * (6/100) -
    volatilityPenalty + vorNorm * vorWeight r.position * scarcityBoost r.position
  base * positionFactor r.position * capFactor r.position

/-- The additive VOR contribution the specification claims for the
unified score: vor_final·vor_weight·scarcity_boost with NO clamping of
negative values (stated from the spec's words, for comparison with the
source's clamped term). -/
def specVorContribution (r : Row) : ℚ :=
  r.vor_final.getD 0 * vorWeight r.position * scarcityBoost r.position

/-- pandas Series.rank(ascending=False, method=min) of a value against
a column: one plus the number of strictly greater entries (tied entries
all receive this minimal rank). -/
def rankMin (scores : List ℚ) (v : ℚ) : ℕ :=
  1 + scores.countP (fun x => v < x)

/-- The unified_rank a row receives on the board df. -/
def unified_rank (df : List Row) (r : Row) : ℕ :=
  rankMin (df.map unified_score) (unified_score r)

/-! ### Market comparison (src/adp_comparison.py) -/

/-- A raw market (ADP) record: an external name and a market rank that
may be missing (NaN). -/
structure AdpRaw where
  player_name : Name
  adp : Option ℚ
deriving DecidableEq

/-- adp_comparison.validate_adp_data: keep only records whose adp is
present and within the plausible 1–200 range.  Nothing else is changed:
in particular duplicate adp values pass through untouched. -/
def validate_adp_data (l : List AdpRaw) : List AdpRaw :=
  l.filter (fun r => match r.adp with
    | some v => decide (1 ≤ v ∧ v ≤ 200)
    | none => false)

/-- Python dict insertion: overwrite the value in place when the key is
already present, append otherwise (insertion order preserved). -/
def pyDictInsert (d : List (Name × ℚ)) (k : Name) (v : ℚ) : List (Name × ℚ) :=
  if d.any (fun kv => kv.1 = k) then
    d.map (fun kv => if kv.1 = k then (k, v) else kv)
  else d ++ [(k, v)]

/-- The adp_dict of match_players_to_adp: dict(zip(normalized names,
adp values)) over the validated market records (a missing adp cannot
occur after validation; getD 0 is dead in that branch). -/
def buildAdpDict (l : List AdpRaw) : List (Name × ℚ) :=
  l.foldl (fun d r =>
    pyDictInsert d (normalize_player_name r.player_name) (r.adp.getD 0)) []

/-- Dictionary lookup (Python: `name in dict` / `dict[name]`). -/
def dictLookup (d : List (Name × ℚ)) (k : Name) : Option ℚ :=
  (d.find? (fun kv => kv.1 = k)).map (fun kv => kv.2)

/-- rapidfuzz process.extractOne over a candidate list with an abstract
similarity scorer: None on an empty candidate set, otherwise the
first-encountered candidate of maximal score (later candidates replace
the current best only on a strictly greater score). -/
def extractOne (sim : Name → Name → ℚ) (q : Name) : List Name → Option (Name × ℚ)
  | [] => none
  | k :: ks => some (ks.foldl
      (fun best k2 => if best.2 < sim q k2 then (k2, sim q k2) else best)
      (k, sim q k))

/-- One row of the big board as consumed by match_players_to_adp. -/
structure BoardRow where
  player_id : Name
  team : Name
  position : Name
  unified_rank : ℚ
  unified_big_board_score : ℚ
  raw_fantasy_points : ℚ
  vor_final : ℚ
deriving DecidableEq

/-- One output row of match_players_to_adp. -/
structure OutRow where
  player_id : Name
  team : Name
  position : Name
  unified_rank : ℚ
  unified_big_board_score : ℚ
  raw_fantasy_points : ℚ
  vor_final : ℚ
  adp : Option ℚ
  rank_difference : Option ℚ
  league_size_adjusted_diff : Option ℚ
  matched : Bool
deriving DecidableEq

/-- The matched output row for a player resolved to market rank a. -/
def mkMatchedRow (p : BoardRow) (league_size : ℕ) (a : ℚ) : OutRow :=
  { player_id := p.player_id, team := p.team, position := p.position,
    unified_rank := p.unified_rank,
    unified_big_board_score := p.unified_big_board_score,
    raw_fantasy_points := p.raw_fantasy_points, vor_final := p.vor_final,
    adp := some a, rank_difference := some (p.unified_rank - a),
    league_size_adjusted_diff := some ((p.unified_rank - a) / league_size),
    matched := true }

/-- The unmatched output row (adp, rank difference and adjusted
difference are NaN). -/
def mkUnmatchedRow (p : BoardRow) : OutRow :=
  { player_id := p.player_id, team := p.team, position := p.position,
    unified_rank := p.unified_rank,
    unified_big_board_score := p.unified_big_board_score,
    raw_fantasy_points := p.raw_fantasy_points, vor_final := p.vor_final,
    adp := none, rank_difference := none,
    league_size_adjusted_diff := none, matched := false }

/-- The per-player body of the matching loop of match_players_to_adp:
exact normalized match first (always accepted, whatever the rank
difference — a large one only prints a warning); otherwise the best
approximate candidate is accepted when its similarity is at least 95,
unless the absolute rank difference exceeds 50 and the similarity is
below 98 (divergence rejection); otherwise the player is unmatched. -/
def resolveOne (sim : Name → Name → ℚ) (d : List (Name × ℚ))
    (league_size : ℕ) (p : BoardRow) : OutRow :=
  match dictLookup d (normalize_player_name p.player_id) with
  | some a => mkMatchedRow p league_size a
  | none =>
    match extractOne sim (normalize_player_name p.player_id)
        (d.map (fun kv => kv.1)) with
    | some ks =>
      if 95 ≤ ks.2 then
        if 50 < |p.unified_rank - (dictLookup d ks.1).getD 0| ∧ ks.2 < 98 then
          mkUnmatchedRow p
        else mkMatchedRow p league_size ((dictLookup d ks.1).getD 0)
      else mkUnmatchedRow p
    | none => mkUnmatchedRow p

/-- Missing-last order on optional market ranks: present values
ascending, missing values after every present value. -/
def optAdpLe : Option ℚ → Option ℚ → Prop
  | some x, some y => x ≤ y
  | some _, none => True
  | none, some _ => False
  | none, none => True

instance : DecidableRel optAdpLe := fun a b => by
  cases a <;> cases b <;> simp [optAdpLe] <;> infer_instance

/-- The sort key order of result_df.sort_values on adp with NaN placed
last. -/
def adpLe (a b : OutRow) : Prop := optAdpLe a.adp b.adp

instance : DecidableRel adpLe := fun a b => by
  unfold adpLe; infer_instance

instance : IsTotal OutRow adpLe :=
  ⟨fun a b => by
    unfold adpLe
    cases a.adp with
    | none => cases b.adp <;> simp [optAdpLe]
    | some x =>
      cases b.adp with
      | none => simp [optAdpLe]
      | some y => simpa [optAdpLe] using le_total x y⟩

instance : IsTrans OutRow adpLe :=
  ⟨fun a b c hab hbc => by
    unfold adpLe at *
    cases ha : a.adp <;> cases hb : b.adp <;> cases hc : c.adp <;>
      simp_all [optAdpLe]
    exact le_trans hab hbc⟩

/-- The unsorted result rows of match_players_to_adp: every board
player resolved against the validated, indexed market records, with the
matched rows gathered before the unmatched ones (the source appends the
matched_players list and then the unmatched_big_board list). -/
def matchRowsPre (sim : Name → Name → ℚ) (board : List BoardRow)
    (adpRaw : List AdpRaw) (league_size : ℕ) : List OutRow :=
  (board.map (resolveOne sim (buildAdpDict (validate_adp_data adpRaw))
      league_size)).filter (fun r => r.matched) ++
    (board.map (resolveOne sim (buildAdpDict (validate_adp_data adpRaw))
      league_size)).filter (fun r => !r.matched)

/-- adp_comparison.match_players_to_adp: the result rows sorted by adp
with missing values placed last. -/
def match_players_to_adp (sim : Name → Name → ℚ) (board : List BoardRow)
    (adpRaw : List AdpRaw) (league_size : ℕ) : List OutRow :=
  List.insertionSort adpLe (matchRowsPre sim board adpRaw league_size)

/-- adp_comparison.get_value_color: the value tier of a league-size
adjusted rank difference (NaN means missing from ADP). -/
def get_value_color (diff : Option ℚ) : String :=
  match diff with
  | none => "purple"
  | some d =>
    if d ≤ -(3/2) then "teal"
    else if d ≤ -(8/10) then "green"
    else if d ≤ -(3/10) then "light_green"
    else if d ≤ (3/10) then "yellow"
    else if d ≤ (8/10) then "orange"
    else "red"

/-- The get_value_recommendation helper nested in
create_adp_comparison_sheet: the recommendation text of a value color. -/
def get_value_recommendation (color : String) : String :=
  if color = "teal" then "Strong Buy"
  else if color = "green" then "Buy"
  else if color = "light_green" then "Slight Buy"
  else if color = "yellow" then "Slight Avoid"
  else if color = "orange" then "Avoid"
  else if color = "red" then "Strong Avoid"
  else if color = "purple" then "Not in ADP"
  else "Unknown"

/-- create_adp_comparison_sheet, reduced to the data it attaches: every
output row of match_players_to_adp together with its value color and
value recommendation. -/
def create_adp_comparison_sheet (sim : Name → Name → ℚ)
    (board : List BoardRow) (adpRaw : List AdpRaw) (league_size : ℕ) :
    List (OutRow × String × String) :=
  (match_players_to_adp sim board adpRaw league_size).map (fun r =>
    (r, get_value_color r.league_size_adjusted_diff,
      get_value_recommendation (get_value_color r.league_size_adjusted_diff)))

/-! ### Canonical name forms (for the idempotence analysis) -/

/-- No two adjacent spaces anywhere in the name. -/
def noDoubleSpace : Name → Bool
  | c :: d :: rest => !(c = ' ' && d = ' ') && noDoubleSpace (d :: rest)
  | _ => true

/-- The first character, if any, is not whitespace. -/
def headNotWs : Name → Bool
  | [] => true
  | c :: _ => !(isPyWs c)

/-- The last character, if any, is not whitespace. -/
def lastNotWs (s : Name) : Bool := headNotWs s.reverse

/-- Every character is a lowercase letter or a space. -/
def allAzSpace (s : Name) : Bool := s.all azOrSpace

/-- A name on which every pass of normalize_player_name acts as the
identity: lowercase letters and single separating spaces only, no
leading or trailing space, not ending in one of the stripped
generational suffixes, and not starting with a nickname that the
variation table would expand to a different full name. -/
def canonicalAdp (s : Name) : Bool :=
  allAzSpace s && noDoubleSpace s && headNotWs s && lastNotWs s &&
    adpSuffixes.all (fun suf => !(suf.isSuffixOf s)) &&
    nameVariations.all (fun kv =>
      !((kv.1 ++ [' ']).isPrefixOf s) || decide (kv.1 = kv.2))

/-- A name on which every pass of main.normalize_name acts as the
identity: lowercase letters and single separating spaces only, no
leading or trailing space, and no word equal to a whole-word
generational suffix token. -/
def canonicalMain (s : Name) : Bool :=
  allAzSpace s && noDoubleSpace s && headNotWs s && lastNotWs s &&
    (runsGo [] s).all (fun w => !(decide (w ∈ mainSuffixTokens)))

/-! ### Concrete data for the scenario theorems -/

/-- A minimal RB projection row with the given raw fantasy points. -/
def mkRB (q : ℚ) : Row :=
  { player_id := [], team := [], position := "RB".data,
    raw_fantasy_points := q }

/-- The baseline-computation scenario pool: thirty running backs with
descending points 340, 330, …, 50; the 24th-highest value (index 23) is
110. -/
def rbScenarioPool : List Row :=
  [mkRB 340, mkRB 330, mkRB 320, mkRB 310, mkRB 300, mkRB 290, mkRB 280,
   mkRB 270, mkRB 260, mkRB 250, mkRB 240, mkRB 230, mkRB 220, mkRB 210,
   mkRB 200, mkRB 190, mkRB 180, mkRB 170, mkRB 160, mkRB 150, mkRB 140,
   mkRB 130, mkRB 120, mkRB 110, mkRB 100, mkRB 90, mkRB 80, mkRB 70,
   mkRB 60, mkRB 50]

/-- Two rows at the same position with identical points (a degenerate
position group). -/
def twoSameRB : List Row := [mkRB 100, mkRB 100]

/-- The row used by the composite-score counterexample: an RB with the
given vor_final and no optional Monte Carlo columns. -/
def c4Row (v : ℚ) : Row :=
  { player_id := [], team := [], position := "RB".data,
    raw_fantasy_points := 200, vor_final := some v }

/-- A board row for the resolver scenarios ("Tom Kennedy", internal rank
150). -/
def tkRow : BoardRow :=
  { player_id := "Tom Kennedy".data, team := "DET".data,
    position := "WR".data, unified_rank := 150,
    unified_big_board_score := 80, raw_fantasy_points := 90,
    vor_final := -5 }

/-- A market record for the resolver scenarios ("Jameson Williams",
market rank 40). -/
def jwAdp : AdpRaw :=
  { player_name := "Jameson Williams".data, adp := some 40 }

/-- A market record whose name normalizes exactly to "thomas kennedy"
(as the query "Tom Kennedy" does). -/
def tkAdp : AdpRaw :=
  { player_name := "Tom Kennedy".data, adp := some 40 }

/-- Three market records sharing the duplicated rank 40.0. -/
def threeDupAdp : List AdpRaw :=
  [{ player_name := "a".data, adp := some 40 },
   { player_name := "b".data, adp := some 40 },
   { player_name := "c".data, adp := some 40 }]

/-- Board of three rows for the ranking scenario: two tied at 100 raw
points and one at 50. -/
def c1Board : List Row := [mkRB 100, mkRB 100, mkRB 50]

/-- A well-behaved WR row for the bounded-heuristics witness. -/
def wrRow : Row :=
  { player_id := "Justin Jefferson".data, team := "MIN".data,
    position := "WR".data, raw_fantasy_points := 320 }

/-! ### Helper lemmas -/

/-- Splitting a strict-greater count at the next distinct value: when no
element lies strictly between w and v, the elements above w are the
elements above v together with the elements equal to v. -/
theorem countP_dense (t : List ℚ) (v w : ℚ) (hw : w < v)
    (hb : ∀ x ∈ t, ¬(w < x ∧ x < v)) :
    t.countP (fun x => w < x) =
      t.countP (fun x => v < x) + t.countP (fun x => x = v) := by
  induction t with
  | nil => simp
  | cons a t ih =>
    have ha := hb a (List.mem_cons_self a t)
    have iht := ih (fun x hx => hb x (List.mem_cons_of_mem a hx))
    simp only [List.countP_cons]
    rcases lt_trichotomy a v with h | h | h
    · have hwa : ¬ w < a := fun hwlt => ha ⟨hwlt, h⟩
      have h2 : ¬ v < a := not_lt_of_gt h
      have h3 : ¬ a = v := ne_of_lt h
      simp [hwa, h2, h3, iht]
    · subst h
      have h2 : ¬ a < a := lt_irrefl a
      simp [hw, h2, iht]
      omega
    · have hh1 : w < a := hw.trans h
      have h3 : ¬ a = v := (ne_of_gt h)
      simp [hh1, h, h3, iht]
      omega

/-- The unified score of a bare RB row in closed form. -/
theorem unified_score_mkRB (q : ℚ) :
    unified_score (mkRB q) = q * (17/50) + 3/4 := by
  unfold unified_score
  rw [show (mkRB q).position = "RB".data from rfl]
  rw [show (mkRB q).efficiency_adjusted_points = none from rfl,
    show (mkRB q).injury_weight = none from rfl,
    show (mkRB q).mc_mean = none from rfl,
    show (mkRB q).mc_median = none from rfl,
    show (mkRB q).mc_25th_percentile = none from rfl,
    show (mkRB q).mc_75th_percentile = none from rfl,
    show (mkRB q).mc_volatility = none from rfl,
    show (mkRB q).mc_probability_above_avg = none from rfl,
    show (mkRB q).mc_upside_potential = none from rfl,
    show (mkRB q).vor_final = none from rfl,
    show (mkRB q).raw_fantasy_points = q from rfl]
  rw [show vorWeight ("RB".data) = 4/10 from rfl,
    show scarcityBoost ("RB".data) = 105/100 from rfl,
    show volatilityMult ("RB".data) = 5/2 from rfl,
    show positionFactor ("RB".data) = 1 from rfl,
    show capFactor ("RB".data) = 1 from rfl]
  simp only [Option.getD]
  rw [show max (0:ℚ) 0 = 0 from by norm_num]
  ring

/-! ### C1: rank totality and tie rule -/

/-- C1: every player receives exactly one unified_rank, equal to one
plus the number of players with a strictly greater unified big board
score (that is the definition of the embedded pandas min-rank); players
with equal scores share that rank, and the next distinct score's rank
is the shared rank plus the tie-group size, so no rank value is skipped
between a tie group and the next distinct score. -/
theorem C1_rank_total_tie_dense (df : List Row) (p q : Row)
    (h1 : unified_score q < unified_score p)
    (h2 : ∀ r ∈ df, ¬(unified_score q < unified_score r ∧
      unified_score r < unified_score p)) :
    (∀ r : Row, unified_score r = unified_score p →
      unified_rank df r = unified_rank df p) ∧
    unified_rank df q = unified_rank df p +
      (df.map unified_score).countP (fun x => x = unified_score p) := by
  constructor
  · intro r hr
    unfold unified_rank rankMin
    rw [hr]
  · unfold unified_rank rankMin
    have hb : ∀ x ∈ df.map unified_score,
        ¬(unified_score q < x ∧ x < unified_score p) := by
      intro x hx
      rcases List.mem_map.1 hx with ⟨r, hr, rfl⟩
      exact h2 r hr
    have hc := countP_dense (df.map unified_score) (unified_score p)
      (unified_score q) h1 hb
    omega

/-- Witness for C1 on a concrete three-player board with a tie at the
top: the 50-point player's rank is the tied players' shared rank plus
the tie-group size. -/
theorem C1_witness :
    (unified_score (mkRB 50) < unified_score (mkRB 100)) ∧
    unified_rank c1Board (mkRB 50) = unified_rank c1Board (mkRB 100) +
      (c1Board.map unified_score).countP
        (fun x => x = unified_score (mkRB 100)) := by
  have h1 : unified_score (mkRB 50) < unified_score (mkRB 100) := by
    rw [unified_score_mkRB, unified_score_mkRB]; norm_num
  have h2 : ∀ r ∈ c1Board, ¬(unified_score (mkRB 50) < unified_score r ∧
      unified_score r < unified_score (mkRB 100)) := by
    intro r hr
    have hr2 : r = mkRB 100 ∨ r = mkRB 100 ∨ r = mkRB 50 := by
      simpa [c1Board] using hr
    rcases hr2 with rfl | rfl | rfl <;>
      simp only [unified_score_mkRB] <;> norm_num
  exact ⟨h1, (C1_rank_total_tie_dense c1Board (mkRB 100) (mkRB 50) h1 h2).2⟩

/-! ### C3: value tiering of a league-adjusted difference of -1.2 -/

/-- Counterexample to C3: the code's tier thresholds are
-1.5, -0.8, -0.3, 0.3, 0.8 (not -1.0, -0.4, -0.15, 0.8, 1.8), so an adjusted
difference of -1.2 is classified "green" (Buy), not the strongest buy
tier "teal" (Strong Buy). -/
theorem C3_counterexample :
    get_value_color (some (-(6/5))) = "green" ∧
    get_value_color (some (-(6/5))) ≠ "teal" ∧
    get_value_recommendation (get_value_color (some (-(6/5)))) = "Buy" := by
  have h : get_value_color (some (-(6/5))) = "green" := by
    unfold get_value_color
    norm_num
  refine ⟨h, ?_, ?_⟩
  · rw [h]; decide
  · rw [h]; decide

/-- C3 as amended: a league-adjusted difference of -1.2 falls in the
second-strongest buy tier "green" ("Buy") of the code's ordered
thresholds -1.5, -0.8, -0.3, 0.3, 0.8; the strongest buy tier "teal" is
reached exactly when the difference is at most -1.5. -/
theorem C3_amended :
    get_value_color (some (-(6/5))) = "green" ∧
    get_value_recommendation "green" = "Buy" ∧
    (∀ q : ℚ, get_value_color (some q) = "teal" ↔ q ≤ -(3/2)) := by
  refine ⟨?_, by decide, ?_⟩
  · unfold get_value_color
    norm_num
  · intro q
    simp only [get_value_color]
    split_ifs with hh1 hh2 hh3 hh4 hh5 <;>
      constructor <;> intro hx <;> first
        | rfl
        | assumption
        | (exact absurd hx (by decide))
        | (exact absurd hx hh1)

/-- Witness for C3's amended tier characterization at the concrete
difference -2, which the code does place in the strongest buy tier. -/
theorem C3_amended_witness : get_value_color (some (-2)) = "teal" :=
  (C3_amended.2.2 (-2)).mpr (by norm_num)

/-! ### C9: duplicate market ranks are not offset -/

/-- Counterexample to C9: three market records sharing adp = 40.0 pass
through the cleaning stage completely unchanged; no deterministic
offset to 40.0/40.1/40.2 exists anywhere in the pipeline. -/
theorem C9_counterexample :
    validate_adp_data threeDupAdp = threeDupAdp ∧
    (validate_adp_data threeDupAdp).map (fun r => r.adp) =
      [some 40, some 40, some 40] ∧
    ¬ ((validate_adp_data threeDupAdp).map (fun r => r.adp) =
      [some 40, some (401/10), some (402/10)]) := by
  have h : validate_adp_data threeDupAdp = threeDupAdp := by decide
  refine ⟨h, by rw [h]; decide, ?_⟩
  rw [h]
  intro hc
  have h2 : some (40:ℚ) = some (401/10) := by
    have := congrArg (fun l => l.get? 1) hc
    simpa [threeDupAdp] using this
  have h3 : (40:ℚ) = 401/10 := Option.some.inj h2
  norm_num at h3

/-- C9 as amended: out-of-range or missing market ranks are quarantined
(a record survives cleaning exactly when its adp is present and lies in
the range 1–200), but duplicated market ranks are NOT broken apart by
any offset: records sharing adp = 40.0 all keep exactly 40.0, in their
original order. -/
theorem C9_amended :
    (∀ (l : List AdpRaw) (r : AdpRaw), r ∈ validate_adp_data l ↔
      (r ∈ l ∧ ∃ v, r.adp = some v ∧ 1 ≤ v ∧ v ≤ 200)) ∧
    (validate_adp_data threeDupAdp).map (fun r => r.adp) =
      [some 40, some 40, some 40] := by
  constructor
  · intro l r
    unfold validate_adp_data
    rw [List.mem_filter]
    constructor
    · rintro ⟨hm, hf⟩
      refine ⟨hm, ?_⟩
      rcases hadp : r.adp with _ | v
      · rw [hadp] at hf; simp at hf
      · rw [hadp] at hf
        simp only [decide_eq_true_eq] at hf
        exact ⟨v, rfl, hf.1, hf.2⟩
    · rintro ⟨hm, v, hv, h1, h2⟩
      refine ⟨hm, ?_⟩
      rw [hv]
      simpa using ⟨h1, h2⟩
  · decide

/-- Witness for C9's quarantine characterization: the first duplicated
record is kept by the cleaning stage. -/
theorem C9_amended_witness :
    ({ player_name := "a".data, adp := some 40 } : AdpRaw) ∈
      validate_adp_data threeDupAdp :=
  (C9_amended.1 threeDupAdp _).mpr
    ⟨by decide, 40, rfl, by norm_num, by norm_num⟩

/-! ### C4: the VOR contribution of the unified score -/

/-- The unified score of the counterexample row in closed form: the VOR
term enters only through max(vor_final, 0). -/
theorem unified_score_c4Row (v : ℚ) :
    unified_score (c4Row v) = 200 * (17/50) + 3/4 + max v 0 * (21/50) := by
  unfold unified_score
  rw [show (c4Row v).position = "RB".data from rfl]
  rw [show (c4Row v).efficiency_adjusted_points = none from rfl,
    show (c4Row v).injury_weight = none from rfl,
    show (c4Row v).mc_mean = none from rfl,
    show (c4Row v).mc_median = none from rfl,
    show (c4Row v).mc_25th_percentile = none from rfl,
    show (c4Row v).mc_75th_percentile = none from rfl,
    show (c4Row v).mc_volatility = none from rfl,
    show (c4Row v).mc_probability_above_avg = none from rfl,
    show (c4Row v).mc_upside_potential = none from rfl,
    show (c4Row v).vor_final = some v from rfl,
    show (c4Row v).raw_fantasy_points = 200 from rfl]
  rw [show vorWeight ("RB".data) = 4/10 from rfl,
    show scarcityBoost ("RB".data) = 105/100 from rfl,
    show volatilityMult ("RB".data) = 5/2 from rfl,
    show positionFactor ("RB".data) = 1 from rfl,
    show capFactor ("RB".data) = 1 from rfl]
  simp only [Option.getD]
  ring

/-- Counterexample to C4: for a below-replacement RB (vor_final = -10)
the unified score does NOT contain the additive contribution
vor_final·vor_weight·scarcity_boost — the score difference against the
vor_final = 0 row is 0, not the claimed negative contribution, because
the source clamps vor_norm = max(vor_final, 0). -/
theorem C4_counterexample :
    unified_score (c4Row (-10)) - unified_score (c4Row 0) ≠
      specVorContribution (c4Row (-10)) * positionFactor ("RB".data) *
        capFactor ("RB".data) := by
  rw [unified_score_c4Row, unified_score_c4Row]
  rw [show specVorContribution (c4Row (-10)) =
    (-10) * (4/10) * (105/100) from rfl]
  rw [show positionFactor ("RB".data) = 1 from rfl,
    show capFactor ("RB".data) = 1 from rfl]
  rw [show max (-10 : ℚ) 0 = 0 from by norm_num,
    show max (0 : ℚ) 0 = 0 from by norm_num]
  norm_num

/-- The unified score as a function of the vor_final column alone, all
other columns fixed. -/
theorem unified_score_vor_update (r : Row) (v : ℚ) :
    unified_score { r with vor_final := some v } =
      unified_score { r with vor_final := some 0 } +
        max v 0 * vorWeight r.position * scarcityBoost r.position *
          positionFactor r.position * capFactor r.position := by
  unfold unified_score
  dsimp only
  rw [Option.getD_some, Option.getD_some]
  rw [show max (0:ℚ) 0 = 0 from by norm_num]
  ring

/-- C4 as amended: the unified score contains the additive contribution
max(vor_final, 0)·vor_weight·scarcity_boost (scaled by the position
factor and cap applied to the whole sum).  A player with nonpositive
vor_final scores exactly as if vor_final were 0 — the negative VOR never
reduces the score; for nonnegative vor_final the contribution is
vor_final·vor_weight·scarcity_boost as the specification says. -/
theorem C4_amended (r : Row) (v : ℚ) :
    (v ≤ 0 → unified_score { r with vor_final := some v } =
      unified_score { r with vor_final := some 0 }) ∧
    (0 ≤ v → unified_score { r with vor_final := some v } =
      unified_score { r with vor_final := some 0 } +
        v * vorWeight r.position * scarcityBoost r.position *
          positionFactor r.position * capFactor r.position) := by
  constructor
  · intro h
    rw [unified_score_vor_update, max_eq_right h]
    ring
  · intro h
    rw [unified_score_vor_update, max_eq_left h]

/-- Witness for C4's amended claim at the concrete counterexample row:
the -10 VOR row scores the same as the 0 VOR row. -/
theorem C4_amended_witness :
    unified_score (c4Row (-10)) = unified_score (c4Row 0) :=
  (C4_amended (c4Row 0) (-10)).1 (by norm_num)

/-! ### C10: bounded heuristics -/

/-- The accumulated risk is nonnegative for the four known positions. -/
theorem riskAcc_nonneg (r : Row) (h4 : r.position = "QB".data ∨
    r.position = "RB".data ∨ r.position = "WR".data ∨
    r.position = "TE".data) : 0 ≤ riskAcc r := by
  unfold riskAcc
  rcases h4 with hp | hp | hp | hp <;> rw [hp]
  · rw [if_neg (show ¬("QB".data = "RB".data) from by decide), if_pos rfl]
    split_ifs <;> norm_num
  · rw [if_pos rfl]
    split_ifs <;> norm_num
  · rw [if_neg (show ¬("WR".data = "RB".data) from by decide),
      if_neg (show ¬("WR".data = "QB".data) from by decide), if_pos rfl]
    split_ifs <;> norm_num
  · rw [if_neg (show ¬("TE".data = "RB".data) from by decide),
      if_neg (show ¬("TE".data = "QB".data) from by decide),
      if_neg (show ¬("TE".data = "WR".data) from by decide), if_pos rfl]
    split_ifs <;> norm_num

/-- The accumulated upside is nonnegative for the four known
positions. -/
theorem upsideAcc_nonneg (r : Row) (h4 : r.position = "QB".data ∨
    r.position = "RB".data ∨ r.position = "WR".data ∨
    r.position = "TE".data) : 0 ≤ upsideAcc r := by
  unfold upsideAcc
  rcases h4 with hp | hp | hp | hp <;> rw [hp]
  · rw [if_neg (show ¬("QB".data = "RB".data) from by decide), if_pos rfl]
    split_ifs <;> norm_num
  · rw [if_pos rfl]
    split_ifs <;> norm_num
  · rw [if_neg (show ¬("WR".data = "RB".data) from by decide),
      if_neg (show ¬("WR".data = "QB".data) from by decide), if_pos rfl]
    split_ifs <;> norm_num
  · rw [if_neg (show ¬("TE".data = "RB".data) from by decide),
      if_neg (show ¬("TE".data = "QB".data) from by decide),
      if_neg (show ¬("TE".data = "WR".data) from by decide), if_pos rfl]
    split_ifs <;> norm_num

/-- C10: for every player at one of the positions QB, RB, WR, TE, the
heuristic scores risk_score, upside_potential and consistency_score all
lie in the unit interval. -/
theorem C10_bounded_heuristics (r : Row)
    (h : r.position ∈ fourPositions) :
    (0 ≤ risk_score r ∧ risk_score r ≤ 1) ∧
    (0 ≤ upside_potential r ∧ upside_potential r ≤ 1) ∧
    (0 ≤ consistency_score r ∧ consistency_score r ≤ 1) := by
  have h4 : r.position = "QB".data ∨ r.position = "RB".data ∨
      r.position = "WR".data ∨ r.position = "TE".data := by
    simpa [fourPositions] using h
  refine ⟨⟨?_, ?_⟩, ⟨?_, ?_⟩, ⟨?_, ?_⟩⟩
  · exact le_min (riskAcc_nonneg r h4) (by norm_num)
  · exact min_le_right _ _
  · exact le_min (upsideAcc_nonneg r h4) (by norm_num)
  · exact min_le_right _ _
  · exact le_max_left _ _
  · exact max_le (by norm_num) (min_le_left _ _)

/-- Witness for C10 at a concrete wide receiver. -/
theorem C10_witness :
    (wrRow.position ∈ fourPositions) ∧
    ((0 ≤ risk_score wrRow ∧ risk_score wrRow ≤ 1) ∧
     (0 ≤ upside_potential wrRow ∧ upside_potential wrRow ≤ 1) ∧
     (0 ≤ consistency_score wrRow ∧ consistency_score wrRow ≤ 1)) :=
  ⟨by decide, C10_bounded_heuristics wrRow (by decide)⟩

/-! ### C2: replacement baselines and VOR -/

/-- The source's guarded indexing (if the pool is long enough take the
cutoff element, else the median) agrees with the optional-lookup
formulation used by the specification-side definition. -/
theorem dite_get_match (pts : List ℚ) (idx : ℕ) :
    (if h : idx < (sortDesc pts).length then
      some ((sortDesc pts).get ⟨idx, h⟩)
     else pandasMedian pts) =
    (match (sortDesc pts).get? idx with
     | some v => some v
     | none => pandasMedian pts) := by
  rcases hg : (sortDesc pts).get? idx with _ | v
  · have hlen : (sortDesc pts).length ≤ idx := List.get?_eq_none.mp hg
    rw [dif_neg (not_lt.mpr hlen)]
  · rcases List.get?_eq_some.mp hg with ⟨hlt, hv⟩
    rw [dif_pos hlt, hv]

/-- C2: for each of the four positions the computed replacement
baseline is the raw_fantasy_points at descending-sorted index
league_size − 1 (QB, TE) or 2·league_size − 1 (RB, WR), with the median
fallback for a too-small pool; and on the concrete 12-team scenario
pool of thirty RBs whose 24th-highest value is 110, the RB baseline is
110, a 150-point RB has vor = 40, a player exactly at the baseline has
vor = 0, and a 100-point RB has the negative vor = -10. -/
theorem C2_baseline_vor :
    (∀ (df : List Row) (league_size : ℕ) (pos : Name),
      pos ∈ fourPositions →
      calculate_replacement_baselines df league_size pos =
        specReplacementBaseline df league_size pos) ∧
    calculate_replacement_baselines rbScenarioPool 12 ("RB".data) = some 110 ∧
    calculate_vor rbScenarioPool 12 (mkRB 150) = some 40 ∧
    calculate_vor rbScenarioPool 12 (mkRB 110) = some 0 ∧
    calculate_vor rbScenarioPool 12 (mkRB 100) = some (-10) := by
  have hb : calculate_replacement_baselines rbScenarioPool 12 ("RB".data) =
      some 110 := by decide
  have hv : ∀ q : ℚ, calculate_vor rbScenarioPool 12 (mkRB q) =
      some (q - 110) := by
    intro q
    unfold calculate_vor
    rw [show (mkRB q).position = "RB".data from rfl,
      show (mkRB q).raw_fantasy_points = q from rfl,
      if_pos (by decide : ("RB".data ∈ fourPositions)), hb]
    rfl
  refine ⟨?_, hb, ?_, ?_, ?_⟩
  · intro df L pos hpos
    have h4 : pos = "QB".data ∨ pos = "RB".data ∨ pos = "WR".data ∨
        pos = "TE".data := by simpa [fourPositions] using hpos
    unfold calculate_replacement_baselines specReplacementBaseline
    rcases h4 with rfl | rfl | rfl | rfl
    · rw [show baselineIdx L ("QB".data) = L - 1 from by
        unfold baselineIdx; rw [if_pos rfl]]
      rw [if_pos (Or.inl rfl)]
      exact dite_get_match _ _
    · rw [show baselineIdx L ("RB".data) = 2 * L - 1 from by
        unfold baselineIdx
        rw [if_neg (by decide), if_pos rfl]]
      rw [if_neg (by decide : ¬("RB".data = "QB".data ∨ "RB".data = "TE".data))]
      exact dite_get_match _ _
    · rw [show baselineIdx L ("WR".data) = 2 * L - 1 from by
        unfold baselineIdx
        rw [if_neg (by decide), if_neg (by decide), if_pos rfl]]
      rw [if_neg (by decide : ¬("WR".data = "QB".data ∨ "WR".data = "TE".data))]
      exact dite_get_match _ _
    · rw [show baselineIdx L ("TE".data) = L - 1 from by
        unfold baselineIdx
        rw [if_neg (by decide), if_neg (by decide), if_neg (by decide)]]
      rw [if_pos (Or.inr rfl)]
      exact dite_get_match _ _
  · rw [hv]; norm_num
  · rw [hv]; norm_num
  · rw [hv]; norm_num

/-- Witness for C2's baseline refinement at a concrete empty pool and
position QB (exercising the median fallback path). -/
theorem C2_witness :
    ("QB".data ∈ fourPositions) ∧
    calculate_replacement_baselines [] 12 ("QB".data) =
      specReplacementBaseline [] 12 ("QB".data) :=
  ⟨by decide, C2_baseline_vor.1 [] 12 ("QB".data) (by decide)⟩

/-! ### C8: degenerate position groups -/

/-- Counterexample to C8: on a degenerate group the statistical layers
do not fall back to 0 — they produce NaN (modelled as `none`).  Two
identical RBs give a 0 sample std and the z-score 0/0 = NaN; a single
RB gives std NaN; a constant column min–max-normalizes to 0/0 = NaN.
No division error is raised (the operations are total), but the value
is NaN, not the claimed 0. -/
theorem C8_counterexample :
    zScore (fun q : ℚ => q) twoSameRB ("RB".data) 100 = none ∧
    zScore (fun q : ℚ => q) [mkRB 100] ("RB".data) 100 = none ∧
    minmaxNorm [5, 5, 5] 5 = none ∧
    (none : Option ℚ) ≠ some 0 := by
  refine ⟨?_, ?_, ?_, by simp⟩
  · have hpts : positionPoints twoSameRB ("RB".data) = [100, 100] := by decide
    have hm : pandasMean [(100:ℚ), 100] = some 100 := by
      unfold pandasMean
      rw [if_neg (by decide)]
      norm_num
    have hvv : pandasVarSample [(100:ℚ), 100] = some 0 := by
      unfold pandasVarSample
      norm_num
    have hs : pandasStd (fun q : ℚ => q) [(100:ℚ), 100] = some 0 := by
      unfold pandasStd
      rw [hvv]
      rfl
    unfold zScore
    rw [hpts, hm, hs]
    show nanDiv (100 - 100) 0 = none
    unfold nanDiv
    rw [if_pos rfl]
  · have hpts : positionPoints [mkRB 100] ("RB".data) = [100] := by decide
    have hs : pandasStd (fun q : ℚ => q) [(100:ℚ)] = none := by
      unfold pandasStd pandasVarSample
      norm_num
    unfold zScore
    rw [hpts, hs]
    rcases pandasMean [(100:ℚ)] with _ | m <;> rfl
  · unfold minmaxNorm pandasMin pandasMax
    rw [show ([5, 5, 5] : List ℚ).min? = some 5 from by decide,
      show ([5, 5, 5] : List ℚ).max? = some 5 from by decide]
    show nanDiv (5 - 5) (5 - 5) = none
    unfold nanDiv
    rw [if_pos (by norm_num)]

/-- The sum of a constant list. -/
theorem sum_const_list (l : List ℚ) (x : ℚ) (h : ∀ y ∈ l, y = x) :
    l.sum = (l.length : ℚ) * x := by
  induction l with
  | nil => simp
  | cons a t ih =>
    have ha : a = x := h a (List.mem_cons_self a t)
    have iht := ih (fun y hy => h y (List.mem_cons_of_mem a hy))
    rw [List.sum_cons, ha, iht, List.length_cons]
    push_cast
    ring

/-- The mean of a nonempty constant list is the constant. -/
theorem pandasMean_const (l : List ℚ) (x : ℚ) (hne : l ≠ [])
    (h : ∀ y ∈ l, y = x) : pandasMean l = some x := by
  unfold pandasMean
  rw [if_neg hne, sum_const_list l x h]
  have hlen : (l.length : ℚ) ≠ 0 := by
    have hp : 0 < l.length := List.length_pos.mpr hne
    exact_mod_cast Nat.pos_iff_ne_zero.mp hp
  congr 1
  field_simp

/-- The minimum of a nonempty constant list is the constant. -/
theorem min?_const (x : ℚ) : ∀ l : List ℚ, l ≠ [] →
    (∀ y ∈ l, y = x) → l.min? = some x := by
  intro l
  induction l with
  | nil => intro h; exact absurd rfl h
  | cons a t ih =>
    intro _ h
    rw [List.min?_cons]
    rcases t with _ | ⟨b, t2⟩
    · simp only [List.min?_nil, Option.elim]
      exact congrArg some (h a (by simp))
    · rw [ih (by simp) (fun y hy => h y (List.mem_cons_of_mem a hy))]
      simp only [Option.elim]
      rw [h a (by simp), min_self]

/-- The maximum of a nonempty constant list is the constant. -/
theorem max?_const (x : ℚ) : ∀ l : List ℚ, l ≠ [] →
    (∀ y ∈ l, y = x) → l.max? = some x := by
  intro l
  induction l with
  | nil => intro h; exact absurd rfl h
  | cons a t ih =>
    intro _ h
    rw [List.max?_cons]
    rcases t with _ | ⟨b, t2⟩
    · simp only [List.max?_nil, Option.elim]
      exact congrArg some (h a (by simp))
    · rw [ih (by simp) (fun y hy => h y (List.mem_cons_of_mem a hy))]
      simp only [Option.elim]
      rw [h a (by simp), max_self]

/-- C8 as amended: the statistical layers never raise a division error
(every operation is total), but on a degenerate position group the
fallback value is NaN (`none`), not 0: a single-player group has an
undefined sample std and hence an undefined z-score; a group of two or
more identical values has std 0 and z-score 0/0, undefined; and a
constant column min–max-normalizes to 0/0, undefined. -/
theorem C8_amended (sqrtFn : ℚ → ℚ) (h0 : sqrtFn 0 = 0) (df : List Row)
    (pos : Name) (x : ℚ) :
    ((positionPoints df pos).length = 1 → zScore sqrtFn df pos x = none) ∧
    ((positionPoints df pos) ≠ [] →
      (∀ y ∈ positionPoints df pos, y = x) → zScore sqrtFn df pos x = none) ∧
    (∀ l : List ℚ, l ≠ [] → (∀ y ∈ l, y = x) → minmaxNorm l x = none) := by
  have hstd_none : ∀ pts : List ℚ, pts.length = 1 →
      pandasStd sqrtFn pts = none := by
    intro pts h1
    unfold pandasStd pandasVarSample
    rw [if_pos (by omega)]
    rfl
  refine ⟨?_, ?_, ?_⟩
  · intro h1
    unfold zScore
    rw [hstd_none _ h1]
    rcases pandasMean (positionPoints df pos) with _ | m <;> rfl
  · intro hne hconst
    by_cases h1 : (positionPoints df pos).length = 1
    · unfold zScore
      rw [hstd_none _ h1]
      rcases pandasMean (positionPoints df pos) with _ | m <;> rfl
    · have hlq : ((positionPoints df pos).length : ℚ) ≠ 0 := by
        have hp : 0 < (positionPoints df pos).length :=
          List.length_pos.mpr hne
        exact_mod_cast Nat.pos_iff_ne_zero.mp hp
      have hvar : pandasVarSample (positionPoints df pos) = some 0 := by
        unfold pandasVarSample
        rw [if_neg (by
          have hp : 0 < (positionPoints df pos).length :=
            List.length_pos.mpr hne
          omega)]
        have hz : ((positionPoints df pos).map
            (fun y => (y - (positionPoints df pos).sum /
              ((positionPoints df pos).length : ℚ)) ^ 2)).sum = 0 := by
          apply List.sum_eq_zero
          intro z hzm
          rcases List.mem_map.1 hzm with ⟨y, hy, rfl⟩
          rw [hconst y hy, sum_const_list _ x hconst]
          rw [mul_comm, mul_div_assoc, div_self hlq]
          ring
        rw [hz, zero_div]
      have hstd : pandasStd sqrtFn (positionPoints df pos) = some 0 := by
        unfold pandasStd
        rw [hvar]
        simpa using h0
      unfold zScore
      rw [pandasMean_const _ x hne hconst, hstd]
      show nanDiv (x - x) 0 = none
      unfold nanDiv
      rw [if_pos rfl]
  · intro l hne hconst
    unfold minmaxNorm pandasMin pandasMax
    rw [min?_const x l hne hconst, max?_const x l hne hconst]
    show nanDiv (x - x) (x - x) = none
    unfold nanDiv
    rw [if_pos (by ring)]

/-- Witness for C8's amended claim at the concrete degenerate group of
two identical RBs. -/
theorem C8_amended_witness :
    (positionPoints twoSameRB ("RB".data) ≠ [] ∧
      (∀ y ∈ positionPoints twoSameRB ("RB".data), y = 100)) ∧
    zScore (fun q : ℚ => q) twoSameRB ("RB".data) 100 = none :=
  ⟨⟨by decide, by decide⟩,
    (C8_amended (fun q : ℚ => q) rfl twoSameRB ("RB".data) 100).2.1
      (by decide) (by decide)⟩

/-! ### C5 and C6: the entity resolver -/

/-- An exact normalized-name hit resolves to that candidate
unconditionally. -/
theorem resolveOne_exact (sim : Name → Name → ℚ) (d : List (Name × ℚ))
    (league_size : ℕ) (p : BoardRow) (a : ℚ)
    (hd : dictLookup d (normalize_player_name p.player_id) = some a) :
    resolveOne sim d league_size p = mkMatchedRow p league_size a := by
  unfold resolveOne
  rw [hd]

/-- Every resolver outcome is either a matched row (with some market
rank) or the unmatched row. -/
theorem resolveOne_cases (sim : Name → Name → ℚ) (d : List (Name × ℚ))
    (league_size : ℕ) (p : BoardRow) :
    (∃ a, resolveOne sim d league_size p = mkMatchedRow p league_size a) ∨
    resolveOne sim d league_size p = mkUnmatchedRow p := by
  rcases hd : dictLookup d (normalize_player_name p.player_id) with _ | a
  · rcases hx : extractOne sim (normalize_player_name p.player_id)
        (d.map (fun kv => kv.1)) with _ | ks
    · right
      unfold resolveOne
      rw [hd, hx]
    · by_cases h95 : (95:ℚ) ≤ ks.2
      · by_cases hdiv : 50 < |p.unified_rank -
            (dictLookup d ks.1).getD 0| ∧ ks.2 < 98
        · right
          unfold resolveOne
          rw [hd, hx]
          dsimp only
          rw [if_pos h95, if_pos hdiv]
        · left
          refine ⟨(dictLookup d ks.1).getD 0, ?_⟩
          unfold resolveOne
          rw [hd, hx]
          dsimp only
          rw [if_pos h95, if_neg hdiv]
      · right
        unfold resolveOne
        rw [hd, hx]
        dsimp only
        rw [if_neg h95]
  · left
    exact ⟨a, resolveOne_exact sim d league_size p a hd⟩

/-- The resolver's row for a board player appears in the
match_players_to_adp output. -/
theorem resolveOne_mem_match (sim : Name → Name → ℚ) (board : List BoardRow)
    (adpRaw : List AdpRaw) (league_size : ℕ) (p : BoardRow)
    (hp : p ∈ board) :
    resolveOne sim (buildAdpDict (validate_adp_data adpRaw)) league_size p ∈
      match_players_to_adp sim board adpRaw league_size := by
  have hrows : resolveOne sim (buildAdpDict (validate_adp_data adpRaw))
      league_size p ∈ board.map (resolveOne sim
        (buildAdpDict (validate_adp_data adpRaw)) league_size) :=
    List.mem_map_of_mem _ hp
  have hpre : resolveOne sim (buildAdpDict (validate_adp_data adpRaw))
      league_size p ∈ matchRowsPre sim board adpRaw league_size := by
    unfold matchRowsPre
    rcases hm : (resolveOne sim (buildAdpDict (validate_adp_data adpRaw))
        league_size p).matched with _ | _
    · exact List.mem_append_right _
        (List.mem_filter.mpr ⟨hrows, by rw [hm]; rfl⟩)
    · exact List.mem_append_left _ (List.mem_filter.mpr ⟨hrows, hm⟩)
  unfold match_players_to_adp
  exact (List.perm_insertionSort adpLe _).mem_iff.mpr hpre

/-- Every output row of match_players_to_adp is the resolver's row for
some board player. -/
theorem match_row_source (sim : Name → Name → ℚ) (board : List BoardRow)
    (adpRaw : List AdpRaw) (league_size : ℕ) (r : OutRow)
    (hr : r ∈ match_players_to_adp sim board adpRaw league_size) :
    ∃ p ∈ board, r = resolveOne sim
      (buildAdpDict (validate_adp_data adpRaw)) league_size p := by
  have hpre : r ∈ matchRowsPre sim board adpRaw league_size :=
    (List.perm_insertionSort adpLe _).mem_iff.mp hr
  unfold matchRowsPre at hpre
  rcases List.mem_append.mp hpre with hf | hf <;>
    rcases List.mem_map.1 (List.mem_filter.mp hf).1 with ⟨p, hpb, hpe⟩ <;>
    exact ⟨p, hpb, hpe.symm⟩

/-- C5: an exact normalized-name match is always accepted with the
candidate's market rank — for every similarity scorer and every rank
difference, so no approximate score and no rank-divergence rule can
override it. -/
theorem C5_exact_match_precedence (sim : Name → Name → ℚ)
    (board : List BoardRow) (adpRaw : List AdpRaw) (league_size : ℕ)
    (p : BoardRow) (a : ℚ) (hp : p ∈ board)
    (ha : dictLookup (buildAdpDict (validate_adp_data adpRaw))
      (normalize_player_name p.player_id) = some a) :
    resolveOne sim (buildAdpDict (validate_adp_data adpRaw)) league_size p =
      mkMatchedRow p league_size a ∧
    mkMatchedRow p league_size a ∈
      match_players_to_adp sim board adpRaw league_size ∧
    (mkMatchedRow p league_size a).adp = some a ∧
    (mkMatchedRow p league_size a).matched = true := by
  have h1 := resolveOne_exact sim (buildAdpDict (validate_adp_data adpRaw))
    league_size p a ha
  refine ⟨h1, ?_, rfl, rfl⟩
  have h2 := resolveOne_mem_match sim board adpRaw league_size p hp
  rw [h1] at h2
  exact h2

/-- Witness for C5: a board player whose normalized name exactly equals
the normalized market name is matched at market rank 40 even though its
internal rank is 150 (difference 110) and the similarity scorer returns
0 for every pair. -/
theorem C5_witness :
    (tkRow ∈ [tkRow]) ∧
    resolveOne (fun _ _ => (0:ℚ))
        (buildAdpDict (validate_adp_data [tkAdp])) 12 tkRow =
      mkMatchedRow tkRow 12 40 ∧
    mkMatchedRow tkRow 12 40 ∈
      match_players_to_adp (fun _ _ => (0:ℚ)) [tkRow] [tkAdp] 12 := by
  have h := C5_exact_match_precedence (fun _ _ => (0:ℚ)) [tkRow] [tkAdp] 12
    tkRow 40 (List.mem_singleton.mpr rfl) (by decide)
  exact ⟨List.mem_singleton.mpr rfl, h.1, h.2.1⟩

/-- A matched output row carries a present market rank; the unmatched
row carries none.  Stated for any resolver outcome. -/
theorem resolveOne_matched_iff (sim : Name → Name → ℚ)
    (d : List (Name × ℚ)) (league_size : ℕ) (p : BoardRow) :
    ((resolveOne sim d league_size p).matched = false ↔
      (resolveOne sim d league_size p).adp = none) := by
  rcases resolveOne_cases sim d league_size p with ⟨a, he⟩ | he <;> rw [he]
  · constructor <;> intro h <;> simp [mkMatchedRow] at h
  · exact ⟨fun _ => rfl, fun _ => rfl⟩

/-- C6: a player with no exact normalized match whose best approximate
candidate is rejected — similarity below 95, or rank divergence above
50 with similarity below 98, or no candidate at all — is marked
unmatched with a null adp (never a low-confidence match), appears in
the output, is classified "purple" / "Not in ADP", and in the
ADP-sorted output no unmatched row ever precedes a matched row.  No
error is raised: the resolver is a total function. -/
theorem C6_unresolved_first_class (sim : Name → Name → ℚ)
    (board : List BoardRow) (adpRaw : List AdpRaw) (league_size : ℕ)
    (p : BoardRow) (hp : p ∈ board)
    (hnk : dictLookup (buildAdpDict (validate_adp_data adpRaw))
      (normalize_player_name p.player_id) = none)
    (hrej : ∀ ks : Name × ℚ, extractOne sim (normalize_player_name p.player_id)
        ((buildAdpDict (validate_adp_data adpRaw)).map (fun kv => kv.1)) =
          some ks →
      ks.2 < 95 ∨ (50 < |p.unified_rank -
        (dictLookup (buildAdpDict (validate_adp_data adpRaw)) ks.1).getD 0| ∧
        ks.2 < 98)) :
    resolveOne sim (buildAdpDict (validate_adp_data adpRaw)) league_size p =
      mkUnmatchedRow p ∧
    (mkUnmatchedRow p).adp = none ∧
    (mkUnmatchedRow p).matched = false ∧
    get_value_color (mkUnmatchedRow p).league_size_adjusted_diff =
      "purple" ∧
    get_value_recommendation "purple" = "Not in ADP" ∧
    mkUnmatchedRow p ∈ match_players_to_adp sim board adpRaw league_size ∧
    List.Pairwise (fun r1 r2 => r1.matched = false → r2.matched = false)
      (match_players_to_adp sim board adpRaw league_size) := by
  have h1 : resolveOne sim (buildAdpDict (validate_adp_data adpRaw))
      league_size p = mkUnmatchedRow p := by
    rcases hx : extractOne sim (normalize_player_name p.player_id)
        ((buildAdpDict (validate_adp_data adpRaw)).map (fun kv => kv.1))
      with _ | ks
    · unfold resolveOne
      rw [hnk, hx]
    · rcases hrej ks hx with h95 | hdiv
      · unfold resolveOne
        rw [hnk, hx]
        dsimp only
        rw [if_neg (not_le.mpr h95)]
      · by_cases h95b : (95:ℚ) ≤ ks.2
        · unfold resolveOne
          rw [hnk, hx]
          dsimp only
          rw [if_pos h95b, if_pos hdiv]
        · unfold resolveOne
          rw [hnk, hx]
          dsimp only
          rw [if_neg h95b]
  have hmem : mkUnmatchedRow p ∈
      match_players_to_adp sim board adpRaw league_size := by
    have := resolveOne_mem_match sim board adpRaw league_size p hp
    rw [h1] at this
    exact this
  have hpair : List.Pairwise
      (fun r1 r2 => r1.matched = false → r2.matched = false)
      (match_players_to_adp sim board adpRaw league_size) := by
    have hs : List.Sorted adpLe
        (match_players_to_adp sim board adpRaw league_size) := by
      unfold match_players_to_adp
      exact List.sorted_insertionSort adpLe _
    refine List.Pairwise.imp_of_mem ?_ hs
    intro r1 r2 h1m h2m hle hm1
    rcases match_row_source sim board adpRaw league_size r1 h1m
      with ⟨p1, _, rfl⟩
    rcases match_row_source sim board adpRaw league_size r2 h2m
      with ⟨p2, _, rfl⟩
    have ha1 : (resolveOne sim (buildAdpDict (validate_adp_data adpRaw))
        league_size p1).adp = none :=
      (resolveOne_matched_iff sim _ league_size p1).mp hm1
    have ha2 : (resolveOne sim (buildAdpDict (validate_adp_data adpRaw))
        league_size p2).adp = none := by
      unfold adpLe at hle
      rw [ha1] at hle
      rcases ha2c : (resolveOne sim (buildAdpDict (validate_adp_data adpRaw))
          league_size p2).adp with _ | b
      · rfl
      · rw [ha2c] at hle
        exact absurd hle (by simp [optAdpLe])
    exact (resolveOne_matched_iff sim _ league_size p2).mpr ha2
  exact ⟨h1, rfl, rfl, rfl, by decide, hmem, hpair⟩

/-- Witness for C6: the "Tom Kennedy" query against the sole candidate
"Jameson Williams" with constant similarity 60 (below the threshold 95)
is unresolved: a null adp, the "Not in ADP" tier, and no error. -/
theorem C6_witness :
    resolveOne (fun _ _ => (60:ℚ))
        (buildAdpDict (validate_adp_data [jwAdp])) 12 tkRow =
      mkUnmatchedRow tkRow ∧
    mkUnmatchedRow tkRow ∈
      match_players_to_adp (fun _ _ => (60:ℚ)) [tkRow] [jwAdp] 12 := by
  have he : extractOne (fun _ _ => (60:ℚ))
      (normalize_player_name tkRow.player_id)
      ((buildAdpDict (validate_adp_data [jwAdp])).map (fun kv => kv.1)) =
      some ("jameson williams".data, 60) := by decide
  have h := C6_unresolved_first_class (fun _ _ => (60:ℚ)) [tkRow] [jwAdp] 12
    tkRow (List.mem_singleton.mpr rfl) (by decide) (by
      intro ks hx
      rw [he] at hx
      injection hx with hh
      subst hh
      left
      norm_num)
  exact ⟨h.1, h.2.2.2.2.2.1⟩

/-! ### C7: idempotence of the name normalizers -/

/-- A character whose code point is 32 is the space character. -/
theorem char_eq_space {c : Char} (h : c.toNat = 32) : c = ' ' := by
  have hv : c.val = (' ' : Char).val := by
    apply UInt32.ext
    simpa [Char.toNat] using h
  exact Char.ext hv

/-- An allowed character is a lowercase letter or the space. -/
theorem azOrSpace_cases {c : Char} (h : azOrSpace c = true) :
    (97 ≤ c.toNat ∧ c.toNat ≤ 122) ∨ c = ' ' := by
  simp only [azOrSpace, Bool.or_eq_true, Bool.and_eq_true,
    decide_eq_true_eq] at h
  rcases h with h | h
  · exact Or.inl h
  · exact Or.inr (char_eq_space h)

/-- Lower-casing keeps an allowed character. -/
theorem pyLowerChar_id {c : Char} (h : azOrSpace c = true) :
    pyLowerChar c = c := by
  unfold pyLowerChar
  rw [if_neg]
  rcases azOrSpace_cases h with hl | hs
  · omega
  · subst hs
    decide

/-- Lower-casing keeps a name of allowed characters. -/
theorem map_lower_id (s : Name) (h : allAzSpace s = true) :
    s.map pyLowerChar = s := by
  induction s with
  | nil => rfl
  | cons c cs ih =>
    simp only [allAzSpace, List.all_cons, Bool.and_eq_true] at h
    rw [List.map_cons, pyLowerChar_id h.1, ih h.2]

/-- A lowercase letter is not Python whitespace. -/
theorem isPyWs_letter {c : Char} (h : 97 ≤ c.toNat ∧ c.toNat ≤ 122) :
    isPyWs c = false := by
  simp only [isPyWs, Bool.or_eq_false_iff, decide_eq_false_iff_not]
  omega

/-- For an allowed character, whitespace means space. -/
theorem isPyWs_of_azOrSpace {c : Char} (h : azOrSpace c = true)
    (hws : isPyWs c = true) : c = ' ' := by
  rcases azOrSpace_cases h with hl | hs
  · rw [isPyWs_letter hl] at hws
    exact absurd hws (by simp)
  · exact hs

/-- dropWhile is the identity when the head fails the predicate. -/
theorem dropWhile_id {p : Char → Bool} {l : Name}
    (h : ∀ c, l.head? = some c → p c = false) : l.dropWhile p = l := by
  cases l with
  | nil => rfl
  | cons c cs =>
    rw [List.dropWhile_cons, if_neg (by simp [h c rfl])]

/-- Stripping is the identity when neither end is whitespace. -/
theorem stripWs_id (s : Name) (h1 : headNotWs s = true)
    (h2 : lastNotWs s = true) : stripWs s = s := by
  have hd1 : s.dropWhile isPyWs = s := by
    apply dropWhile_id
    intro c hc
    cases s with
    | nil => simp at hc
    | cons a t =>
      simp only [List.head?_cons, Option.some.injEq] at hc
      subst hc
      simpa [headNotWs] using h1
  have hd2 : s.reverse.dropWhile isPyWs = s.reverse := by
    apply dropWhile_id
    intro c hc
    unfold lastNotWs at h2
    cases hr : s.reverse with
    | nil => rw [hr] at hc; simp at hc
    | cons a t =>
      rw [hr] at hc
      simp only [List.head?_cons, Option.some.injEq] at hc
      subst hc
      rw [hr] at h2
      simpa [headNotWs] using h2
  unfold stripWs
  rw [hd1, hd2, List.reverse_reverse]

/-- The tail of a name with no double spaces has no double spaces. -/
theorem noDoubleSpace_tail {c : Char} {cs : Name}
    (h : noDoubleSpace (c :: cs) = true) : noDoubleSpace cs = true := by
  cases cs with
  | nil => rfl
  | cons d t =>
    simp only [noDoubleSpace, Bool.and_eq_true] at h ⊢
    exact h.2

/-- One step of the whitespace squasher, as an equation. -/
theorem sqGo_cons (b : Bool) (c : Char) (cs : Name) :
    sqGo b (c :: cs) = if isPyWs c then
      (if b then sqGo true cs else ' ' :: sqGo true cs)
    else c :: sqGo false cs := rfl

/-- The whitespace squasher is the identity on a name of allowed
characters with no double spaces (in the pending state additionally
requiring a non-whitespace head). -/
theorem sqGo_id (s : Name) : allAzSpace s = true → noDoubleSpace s = true →
    (sqGo false s = s ∧ (headNotWs s = true → sqGo true s = s)) := by
  induction s with
  | nil => exact fun _ _ => ⟨rfl, fun _ => rfl⟩
  | cons c cs ih =>
    intro hall hd
    have hallc : azOrSpace c = true ∧ allAzSpace cs = true := by
      simpa [allAzSpace, List.all_cons] using hall
    have ihcs := ih hallc.2 (noDoubleSpace_tail hd)
    constructor
    · rcases azOrSpace_cases hallc.1 with hl | hsp
      · rw [sqGo_cons, if_neg (by rw [isPyWs_letter hl]; simp), ihcs.1]
      · subst hsp
        rw [sqGo_cons, if_pos (show isPyWs ' ' = true from rfl),
          if_neg Bool.false_ne_true]
        have hhead : headNotWs cs = true := by
          cases cs with
          | nil => rfl
          | cons d t =>
            simp only [noDoubleSpace, Bool.and_eq_true] at hd
            have hda : azOrSpace d = true := by
              have h2 := hallc.2
              simp only [allAzSpace, List.all_cons, Bool.and_eq_true] at h2
              exact h2.1
            show (!(isPyWs d)) = true
            rcases azOrSpace_cases hda with hdl | hds
            · rw [isPyWs_letter hdl]
              rfl
            · subst hds
              simp at hd
        rw [ihcs.2 hhead]
    · intro hh
      have hcws : isPyWs c = false := by
        simpa [headNotWs] using hh
      rw [sqGo_cons, if_neg (by rw [hcws]; simp), ihcs.1]

/-- One step of the suffix-run remover, as an equation. -/
theorem rstGo_cons (cur : Name) (c : Char) (cs : Name) :
    rstGo cur (c :: cs) = if isPyWordChar c then rstGo (cur ++ [c]) cs
      else emitRun cur ++ c :: rstGo [] cs := rfl

/-- One step of the run splitter, as an equation. -/
theorem runsGo_cons (cur : Name) (c : Char) (cs : Name) :
    runsGo cur (c :: cs) = if isPyWordChar c then runsGo (cur ++ [c]) cs
      else cur :: runsGo [] cs := rfl

/-- The suffix-run remover is the identity when no maximal run is a
suffix token. -/
theorem rstGo_id : ∀ (s cur : Name),
    (∀ w ∈ runsGo cur s, ¬ w ∈ mainSuffixTokens) → rstGo cur s = cur ++ s := by
  intro s
  induction s with
  | nil =>
    intro cur h
    have hc : ¬ cur ∈ mainSuffixTokens := h cur (by unfold runsGo; simp)
    unfold rstGo emitRun
    rw [if_neg hc]
    simp
  | cons c cs ih =>
    intro cur h
    by_cases hw : isPyWordChar c = true
    · rw [rstGo_cons, if_pos hw]
      have hruns : ∀ w ∈ runsGo (cur ++ [c]) cs, ¬ w ∈ mainSuffixTokens := by
        intro w hwm
        apply h
        rw [runsGo_cons, if_pos hw]
        exact hwm
      rw [ih (cur ++ [c]) hruns]
      simp
    · have hwf : isPyWordChar c = false := by
        simpa using hw
      rw [rstGo_cons, if_neg (by rw [hwf]; simp)]
      have hhead : ¬ cur ∈ mainSuffixTokens := by
        apply h
        rw [runsGo_cons, if_neg (by rw [hwf]; simp)]
        simp
      have hrest : ∀ w ∈ runsGo [] cs, ¬ w ∈ mainSuffixTokens := by
        intro w hwm
        apply h
        rw [runsGo_cons, if_neg (by rw [hwf]; simp)]
        simp [hwm]
      unfold emitRun
      rw [if_neg hhead, ih [] hrest]
      simp

/-- A fold is the identity when every step is. -/
theorem foldl_id_of {β : Type} (L : List β) (f : Name → β → Name)
    (s : Name) (h : ∀ b ∈ L, f s b = s) : L.foldl f s = s := by
  induction L with
  | nil => rfl
  | cons b t ih =>
    rw [List.foldl_cons, h b (List.mem_cons_self b t)]
    exact ih (fun x hx => h x (List.mem_cons_of_mem b hx))

/-- Mapping is the identity when every element is fixed. -/
theorem map_id_of_mem {f : Char → Char} {l : Name}
    (h : ∀ c ∈ l, f c = c) : l.map f = l := by
  induction l with
  | nil => rfl
  | cons c cs ih =>
    rw [List.map_cons, h c (List.mem_cons_self c cs),
      ih (fun x hx => h x (List.mem_cons_of_mem c hx))]

/-- A nickname step is the identity when the short name is not a prefix
or maps to itself. -/
theorem variationStep_id (s : Name) (kv : Name × Name)
    (h : ((kv.1 ++ [' ']).isPrefixOf s) = false ∨ kv.1 = kv.2) :
    variationStep s kv = s := by
  by_cases hp : (kv.1 ++ [' ']) <+: s
  · have hkk : kv.1 = kv.2 := by
      rcases h with hnp | hkk
      · rw [List.isPrefixOf_iff_prefix.mpr hp] at hnp
        exact absurd hnp (by simp)
      · exact hkk
    obtain ⟨t, ht⟩ := hp
    unfold variationStep
    rw [if_pos (by simpa using List.isPrefixOf_iff_prefix.mpr ⟨t, ht⟩)]
    rw [← ht]
    rw [show kv.1.length + 1 = (kv.1 ++ [' ']).length from by simp]
    rw [List.drop_left]
    simp [← hkk]
  · unfold variationStep
    rw [if_neg (by simpa using hp)]

/-- Every pass of normalize_player_name is the identity on a canonical
name, so the whole normalizer is. -/
theorem normalize_player_name_fixed (s : Name)
    (h : canonicalAdp s = true) : normalize_player_name s = s := by
  have hc := h
  simp only [canonicalAdp, Bool.and_eq_true, List.all_eq_true] at hc
  obtain ⟨⟨⟨⟨⟨hall, hdd⟩, hhead⟩, hlast⟩, hsuf⟩, hvar⟩ := hc
  have hallm : ∀ c ∈ s, azOrSpace c = true := by
    simpa [allAzSpace, List.all_eq_true] using hall
  have e1 : stripWs (s.map pyLowerChar) = s := by
    rw [map_lower_id s hall]
    exact stripWs_id s hhead hlast
  have e2 : stripAdpSuffixes s = s := by
    unfold stripAdpSuffixes
    apply foldl_id_of
    intro suf hsufm
    have hs := hsuf suf hsufm
    have hs2 : ¬ suf <:+ s := by
      intro hcon
      have hc2 : List.isSuffixOf suf s = true :=
        List.isSuffixOf_iff_suffix.mpr hcon
      rw [hc2] at hs
      exact absurd hs (by simp)
    unfold stripSuffixStep
    rw [if_neg (by simpa using hs2)]
  have e3 : joinSplit s = s := by
    unfold joinSplit squashWs
    rw [(sqGo_id s hall hdd).1]
    exact stripWs_id s hhead hlast
  have hnotchar : ∀ x : Char, azOrSpace x = false →
      ∀ c ∈ s, ¬ c = x := by
    intro x hx c hcs he
    subst he
    have hcc := hallm c hcs
    rw [hx] at hcc
    exact absurd hcc (by simp)
  have e4a : s.filter (fun c => !(c = '.')) = s := by
    rw [List.filter_eq_self]
    intro c hcs
    simp only [Bool.not_eq_true']
    exact decide_eq_false (hnotchar '.' (by decide) c hcs)
  have e4b : s.filter (fun c => !(c = ',')) = s := by
    rw [List.filter_eq_self]
    intro c hcs
    simp only [Bool.not_eq_true']
    exact decide_eq_false (hnotchar ',' (by decide) c hcs)
  have e4c : s.map (fun c => if c = '-' then ' ' else c) = s := by
    apply map_id_of_mem
    intro c hcs
    rw [if_neg (hnotchar '-' (by decide) c hcs)]
  have e5 : applyVariations s = s := by
    unfold applyVariations
    apply foldl_id_of
    intro kv hkv
    have hv := hvar kv hkv
    apply variationStep_id
    rcases Bool.or_eq_true _ _ |>.mp hv with hnp | hkk
    · left
      simpa using hnp
    · right
      simpa using hkk
  unfold normalize_player_name
  simp only [e1, e2, e3, e4a, e4b, e4c, e5]

/-- Every pass of main.normalize_name is the identity on a canonical
name, so the whole normalizer is. -/
theorem normalize_name_fixed (s : Name) (h : canonicalMain s = true) :
    normalize_name s = s := by
  have hc := h
  simp only [canonicalMain, Bool.and_eq_true, List.all_eq_true] at hc
  obtain ⟨⟨⟨⟨hall, hdd⟩, hhead⟩, hlast⟩, hruns⟩ := hc
  have hallm : ∀ c ∈ s, azOrSpace c = true := by
    simpa [allAzSpace, List.all_eq_true] using hall
  have e1 : s.map pyLowerChar = s := map_lower_id s hall
  have e2 : removeSuffixTokens s = s := by
    unfold removeSuffixTokens
    have hr := rstGo_id s [] (by
      intro w hw
      have := hruns w hw
      simpa using this)
    simpa using hr
  have e3 : s.filter azOrSpace = s := by
    rw [List.filter_eq_self]
    exact hallm
  have e4 : squashWs s = s := (sqGo_id s hall hdd).1
  have e5 : stripWs s = s := stripWs_id s hhead hlast
  unfold normalize_name
  rw [e1, e2, e3]
  rw [show squashWs s = s from e4, e5]

/-- Counterexample to C7: neither normalizer is idempotent.  For
normalize_player_name, "a ii ii" loses one trailing " ii" per
application (the suffix loop strips each suffix only once); for
main.normalize_name, "i.i" becomes "ii" (the punctuation filter runs
after the whole-word suffix regex), and a second application deletes
the newly-formed whole word "ii". -/
theorem C7_counterexample :
    normalize_player_name (normalize_player_name ("a ii ii".data)) ≠
      normalize_player_name ("a ii ii".data) ∧
    normalize_name (normalize_name ("i.i".data)) ≠
      normalize_name ("i.i".data) ∧
    normalize_player_name ("a ii ii".data) = "a ii".data ∧
    normalize_name ("i.i".data) = "ii".data ∧
    normalize_name ("ii".data) = [] := by
  refine ⟨by decide, by decide, by decide, by decide, by decide⟩

/-- C7 as amended: idempotence fails for general strings, but both
normalizers are the identity — hence idempotent — on every input
already in canonical form (lowercase letters and single separating
spaces, no stripped generational suffix at the end, no whole-word
suffix token, and no expandable leading nickname). -/
theorem C7_amended (s : Name) (h1 : canonicalAdp s = true)
    (h2 : canonicalMain s = true) :
    normalize_player_name (normalize_player_name s) =
      normalize_player_name s ∧
    normalize_name (normalize_name s) = normalize_name s := by
  constructor
  · rw [normalize_player_name_fixed s h1]
    exact normalize_player_name_fixed s h1
  · rw [normalize_name_fixed s h2]
    exact normalize_name_fixed s h2

/-- Witness for C7's amended claim at a concrete canonical name. -/
theorem C7_amended_witness :
    (canonicalAdp ("justin jefferson".data) = true ∧
      canonicalMain ("justin jefferson".data) = true) ∧
    normalize_player_name (normalize_player_name
      ("justin jefferson".data)) =
      normalize_player_name ("justin jefferson".data) ∧
    normalize_name (normalize_name ("justin jefferson".data)) =
      normalize_name ("justin jefferson".data) :=
  ⟨⟨by decide, by decide⟩,
    C7_amended ("justin jefferson".data) (by decide) (by decide)⟩
